import Mathlib

/-!
Verification development for the statistical estimation core of the
predictability toolkit (API server `/api/classify` pipeline).

Modelling conventions:
* JS `number` values are modelled exactly as rationals (`ℚ`) wherever the
  source performs only field arithmetic; quantities produced by the
  transcendental functions `Math.log2` / `Math.exp` are modelled in `ℝ`.
* A JS `Map<string, number>` is modelled as an association list
  `List (String × ℚ)` in insertion order; the maps built by the source
  always have distinct keys, which theorems assume explicitly where needed.
* `undefined` / absent optional fields are modelled with `Option`.
* The one reachable JS `NaN` (a `0/0` in the multi-sample level average) is
  modelled by `Option ℤ` with `none` standing for NaN, which each of the
  subsequent operations (`Math.round`, `Math.max`, `Math.min`) propagates.
-/

/-- A JS `Map<string, number>` with rational values, as an association list
in insertion order. -/
abbrev DistMap := List (String × ℚ)

/-- Model of `clamp01` from the source: `Math.max(0, Math.min(1, x))`. -/
def clamp01 (x : ℚ) : ℚ := max 0 (min 1 x)

/-- Model of `scoreToLevel` from the source: threshold table mapping an overall score
to a PSF level. -/
def scoreToLevel (pOverall : ℚ) : ℤ :=
  if pOverall ≥ 0.9 then 1
  else if pOverall ≥ 0.65 then 2
  else if pOverall ≥ 0.35 then 3
  else if pOverall ≥ 0.15 then 4
  else 5

/-- JS `Math.round` (round half toward +∞), which agrees with `⌊x + 1/2⌋`
on exact rational inputs. -/
def jsRound (x : ℚ) : ℤ := ⌊x + 1/2⌋

/-- JS `Math.min(5, Math.max(1, n))` applied to a rounded level. -/
def clampLevel (n : ℤ) : ℤ := min 5 (max 1 n)

/-- JS truthiness of an optional string (`undefined` and `""` are falsy). -/
def strTruthy : Option String → Bool
  | none => false
  | some s => s ≠ ""

/-- JS `x || d` for an optional number: `undefined` and `0` both fall back
to the default. -/
def jsOr (x : Option ℚ) (d : ℚ) : ℚ :=
  match x with
  | none => d
  | some v => if v = 0 then d else v

/-- JS `String.prototype.trim`, modelled structurally over the character
list (drop whitespace from both ends).  The source trims with the JS
built-in; the exact whitespace set is immaterial to every property proved
here. -/
def jsTrim (s : String) : String :=
  ⟨((s.data.dropWhile Char.isWhitespace).reverse.dropWhile Char.isWhitespace).reverse⟩

/-- One `counts.set(t, (counts.get(t) ?? 0) + 1)` step of the counting loops
(server lines 59-64 and 396-402): increment the entry for `t`, or append a
fresh entry with count 1. -/
def bump : List (String × Nat) → String → List (String × Nat)
  | [], t => [(t, 1)]
  | (k, c) :: rest, t =>
      if k = t then (k, c + 1) :: rest else (k, c) :: bump rest t

/-- The counting loop shared by `computeEmpiricalDistribution` and
`computeTemporalMetricsFromSamples`: trim each sample and, when the trimmed
string is non-empty (`if (trimmed)` in JS), count it. -/
def buildCounts (samples : List String) : List (String × Nat) :=
  samples.foldl (fun acc s => if jsTrim s = "" then acc else bump acc (jsTrim s)) []

/-- The subsequence of trimmed samples that survive the emptiness filter
(the samples on which `validCount` is incremented in the source loop). -/
def validList (samples : List String) : List String :=
  (samples.map jsTrim).filter (fun t => t ≠ "")

/-- Model of `validCount` from the source: how many samples are non-empty after
trimming. -/
def validCountOf (samples : List String) : Nat := (validList samples).length

/-- Model of `computeEmpiricalDistribution` (server lines 56-70): count the trimmed
non-empty samples, then assign each distinct surviving string the mass
`count / n`, where `n = samples.length` is the RAW sample count. -/
def computeEmpiricalDistribution (samples : List String) : DistMap :=
  let n := samples.length
  (buildCounts samples).map (fun e => (e.1, (e.2 : ℚ) / (n : ℚ)))

/- ### Lemmas about the counting loop -/

theorem validList_cons (s : String) (rst : List String) :
    validList (s :: rst) =
      if jsTrim s = "" then validList rst else jsTrim s :: validList rst := by
  by_cases hs : jsTrim s = "" <;> simp [validList, List.filter_cons, hs]

theorem bump_sum (acc : List (String × Nat)) (t : String) :
    ((bump acc t).map Prod.snd).sum = (acc.map Prod.snd).sum + 1 := by
  induction acc with
  | nil => simp [bump]
  | cons e rest ih =>
      obtain ⟨k, c⟩ := e
      by_cases h : k = t
      · simp [bump, h]
        omega
      · simp [bump, h, ih]
        omega

/-- With distinct keys, `bump` either increments the unique entry for `t`
or appends a fresh `(t, 1)` entry. -/
theorem bump_spec (acc : List (String × Nat)) (t : String)
    (hnd : (acc.map Prod.fst).Nodup) :
    (t ∈ acc.map Prod.fst ∧
      bump acc t = acc.map (fun p => if p.1 = t then (p.1, p.2 + 1) else p)) ∨
    (t ∉ acc.map Prod.fst ∧ bump acc t = acc ++ [(t, 1)]) := by
  induction acc with
  | nil => right; simp [bump]
  | cons e rest ih =>
      obtain ⟨k, c⟩ := e
      simp only [List.map_cons, List.nodup_cons] at hnd
      by_cases h : k = t
      · subst h
        left
        constructor
        · simp
        · have hrest : rest.map (fun p => if p.1 = k then (p.1, p.2 + 1) else p) = rest := by
            refine (List.map_congr_left ?_).trans rest.map_id
            intro p hp
            have : p.1 ≠ k := fun hpk => hnd.1 (hpk ▸ List.mem_map.mpr ⟨p, hp, rfl⟩)
            simp [this]
          simp [bump, hrest]
      · rcases ih hnd.2 with ⟨hmem, heq⟩ | ⟨hmem, heq⟩
        · left
          constructor
          · simp [hmem]
          · simp [bump, h, heq, Ne.symm h]
        · right
          constructor
          · simp [hmem, Ne.symm h]
          · simp [bump, h, heq]

/-- Invariant tying a counts accumulator to the list of strings processed
so far: keys are distinct, each entry stores the number of occurrences of
its key, and the keys are exactly the strings seen. -/
def Represents (acc : List (String × Nat)) (l : List String) : Prop :=
  (acc.map Prod.fst).Nodup ∧
  (∀ p ∈ acc, p.2 = l.count p.1) ∧
  (∀ x, x ∈ acc.map Prod.fst ↔ x ∈ l)

theorem represents_nil : Represents [] [] :=
  ⟨by simp, by simp, by simp⟩

theorem represents_bump {acc : List (String × Nat)} {l : List String}
    (h : Represents acc l) (t : String) :
    Represents (bump acc t) (l ++ [t]) := by
  obtain ⟨hnd, hcount, hmem⟩ := h
  rcases bump_spec acc t hnd with ⟨htm, heq⟩ | ⟨htm, heq⟩
  · have hkeys : (bump acc t).map Prod.fst = acc.map Prod.fst := by
      rw [heq, List.map_map]
      refine List.map_congr_left ?_
      intro p hp
      by_cases hpt : p.1 = t <;> simp [hpt]
    refine ⟨hkeys ▸ hnd, ?_, ?_⟩
    · intro p hp
      rw [heq] at hp
      obtain ⟨q, hq, rfl⟩ := List.mem_map.mp hp
      have hcnt := hcount q hq
      by_cases hqt : q.1 = t
      · subst hqt
        simp [List.count_append, hcnt]
      · have : q.1 ∉ [t] := by simp [hqt]
        simp [if_neg hqt, List.count_append, hcnt,
          List.count_eq_zero_of_not_mem this]
    · intro x
      rw [hkeys, hmem]
      constructor
      · intro hx; exact List.mem_append_left _ hx
      · intro hx
        rcases List.mem_append.mp hx with hx | hx
        · exact hx
        · simp only [List.mem_singleton] at hx
          subst hx
          exact (hmem x).mp htm
  · refine ⟨?_, ?_, ?_⟩
    · rw [heq, List.map_append]
      simp only [List.map_cons, List.map_nil]
      rw [List.nodup_append]
      refine ⟨hnd, List.nodup_singleton t, ?_⟩
      intro x hx
      simp only [List.mem_singleton]
      intro hxt
      exact htm (hxt ▸ hx)
    · intro p hp
      rw [heq] at hp
      rcases List.mem_append.mp hp with hp | hp
      · have hne : p.1 ≠ t := by
          intro hpt
          exact htm (hpt ▸ List.mem_map.mpr ⟨p, hp, rfl⟩)
        have : p.1 ∉ [t] := by simp [hne]
        rw [List.count_append, hcount p hp]
        simp [List.count_eq_zero_of_not_mem this]
      · simp only [List.mem_singleton] at hp
        subst hp
        have hnotl : t ∉ l := fun hl => htm ((hmem t).mpr hl)
        rw [List.count_append]
        simp [List.count_eq_zero_of_not_mem hnotl]
    · intro x
      rw [heq, List.map_append]
      simp [hmem]

theorem buildCounts_represents (samples : List String) :
    Represents (buildCounts samples) (validList samples) := by
  suffices h : ∀ (rest : List String) (acc : List (String × Nat)) (l : List String),
      Represents acc l →
      Represents
        (rest.foldl (fun acc s => if jsTrim s = "" then acc else bump acc (jsTrim s)) acc)
        (l ++ validList rest) by
    simpa [buildCounts] using h samples [] [] represents_nil
  intro rest
  induction rest with
  | nil => intro acc l h; simpa [validList] using h
  | cons s rst ih =>
      intro acc l h
      by_cases hs : jsTrim s = ""
      · have := ih acc l h
        simpa [validList_cons, hs] using this
      · have h' := represents_bump h (jsTrim s)
        have := ih (bump acc (jsTrim s)) (l ++ [jsTrim s]) h'
        simpa [validList_cons, hs, List.append_assoc] using this

theorem buildCounts_sum (samples : List String) :
    ((buildCounts samples).map Prod.snd).sum = validCountOf samples := by
  suffices h : ∀ (rest : List String) (acc : List (String × Nat)),
      ((rest.foldl (fun acc s => if jsTrim s = "" then acc else bump acc (jsTrim s)) acc).map
        Prod.snd).sum = (acc.map Prod.snd).sum + validCountOf rest by
    simpa [buildCounts] using h samples []
  intro rest
  induction rest with
  | nil => intro acc; simp [validCountOf, validList]
  | cons s rst ih =>
      intro acc
      by_cases hs : jsTrim s = ""
      · rw [List.foldl_cons, if_pos hs, ih acc]
        have : validCountOf (s :: rst) = validCountOf rst := by
          simp [validCountOf, validList_cons, hs]
        rw [this]
      · rw [List.foldl_cons, if_neg hs, ih (bump acc (jsTrim s)), bump_sum]
        have : validCountOf (s :: rst) = validCountOf rst + 1 := by
          simp [validCountOf, validList_cons, hs]
        rw [this]
        omega

/- ### Mental-model distribution and exact metrics -/

/-- JS `Q.get(x) || d` on a map: a missing key and a stored `0` (falsy)
both fall back to the default. -/
def jsGetOr (Q : DistMap) (x : String) (d : ℚ) : ℚ :=
  match Q.find? (fun e => e.1 = x) with
  | some e => if e.2 = 0 then d else e.2
  | none => d

/-- User-supplied expectations (`userExpectations` of the request body). -/
structure UserExpectations where
  expectedOutput : Option String := none
  expectedVariation : Option ℚ := none
deriving DecidableEq

/-- Model of `constructQ_t_u` (server lines 77-164): build the user mental-model
distribution over Ω from the expectations, then additively smooth with
ε = 0.01 and renormalise.  The source's unused `actualResponse` parameter
is dropped.  The source's `bestMatch` is initialised to the trimmed
expectation and overwritten by the first case-insensitive match in Ω, which
is exactly `find? ... |>.getD expected`. -/
def constructQ_t_u (pT : DistMap) (ue : UserExpectations) : DistMap :=
  let omega := pT.map Prod.fst
  let n := omega.length
  let q1 : DistMap :=
    if strTruthy ue.expectedOutput then
      let expected := jsTrim (ue.expectedOutput.getD "")
      let bestMatch := (omega.find? (fun x => x.toLower = expected.toLower)).getD expected
      let concentration : ℚ :=
        match ue.expectedVariation with
        | some v => 1 - v
        | none => 0.8
      let pExpected := max 0.1 (min 0.95 concentration)
      let pOthers := (1 - pExpected) / ((max 1 (n - 1) : ℕ) : ℚ)
      let base : DistMap := omega.map (fun x =>
        if x = bestMatch ∨ x.toLower = bestMatch.toLower then (x, pExpected) else (x, pOthers))
      if bestMatch ∉ omega ∧ bestMatch ≠ "" then
        let remaining := 1 - pExpected
        let othersCount := omega.length
        (base ++ [(bestMatch, pExpected)]).map (fun e =>
          if e.1 ≠ bestMatch ∧ e.1.toLower ≠ bestMatch.toLower then
            (e.1, remaining / (othersCount : ℚ))
          else e)
      else base
    else
      let uniform := 1 / ((max 1 n : ℕ) : ℚ)
      omega.map (fun x => (x, uniform))
  let epsilon : ℚ := 0.01
  let uniformMass := epsilon / ((max 1 q1.length : ℕ) : ℚ)
  let smoothed : DistMap := q1.map (fun e => (e.1, (1 - epsilon) * e.2 + uniformMass))
  let s := (smoothed.map Prod.snd).sum
  if 0 < s then smoothed.map (fun e => (e.1, e.2 / s)) else smoothed

/-- Model of `computeCExact` (server lines 171-203): θ is the entry at index
`⌊n/2⌋` of the probability masses sorted in descending order; `E_t` is the
set of outcomes with mass ≥ θ (listed here with their `P_t` values, which
matches the source's key-set iteration because `Map` keys are distinct);
the result is `Σ p·q / Σ p` over `E_t`. -/
def computeCExact (P Q : DistMap) : Option ℚ :=
  if P.length = 0 then none
  else
    let probs := List.insertionSort (fun a b => a ≥ b) (P.map Prod.snd)
    let medianIdx := probs.length / 2
    let theta := probs.getD medianIdx 0
    let et := P.filter (fun e => theta ≤ e.2)
    if et.length = 0 then some 0
    else
      let numerator := (et.map (fun e => e.2 * jsGetOr Q e.1 0)).sum
      let denominator := (et.map Prod.snd).sum
      if denominator = 0 then some 0 else some (numerator / denominator)

open Classical in
/-- Model of `computeLExact` (server lines 210-238): `H_max = log2(|Ω| || 1)`,
return 1 when `H_max = 0`, else `L = clamp(exp(−(1/H_max)·D_KL), 0, 1)`
where the KL sum ranges over outcomes with `p > 0` and `q > 0`
(`q = Q.get(x) || 0.0001`), and `null` when no term contributed. -/
noncomputable def computeLExact (P Q : DistMap) : Option ℝ :=
  if P.length = 0 then none
  else
    let hMax : ℝ := Real.logb 2 (((if P.length = 0 then 1 else P.length) : ℕ) : ℝ)
    if hMax = 0 then some 1
    else
      let lambda := 1 / hMax
      let terms := P.filter (fun e => 0 < e.2 ∧ 0 < jsGetOr Q e.1 0.0001)
      if terms.length = 0 then none
      else
        let kl : ℝ :=
          (terms.map (fun e =>
            (e.2 : ℝ) * Real.logb 2 (((e.2 / jsGetOr Q e.1 0.0001 : ℚ)) : ℝ))).sum
        some (max 0 (min 1 (Real.exp (-(lambda * kl)))))

/-- The pair of temporal metrics computed from raw samples.  In the source
either both fields are present or the whole object is empty (`{}`), which
is modelled by wrapping the structure in `Option`. -/
structure TemporalMetrics where
  temporalEntropy : ℝ
  temporalVariationRate : ℚ

open Classical in
/-- Model of `computeTemporalMetricsFromSamples` (server lines 385-426): variation
rate is `distinct / n` over the RAW count `n`; entropy is Shannon entropy
of `count / validCount`, normalised by `log2(distinct)` and `0` when that
normaliser is not positive. -/
noncomputable def computeTemporalMetricsFromSamples (samples : List String) :
    Option TemporalMetrics :=
  if samples.length = 0 then none
  else
    let n := samples.length
    let counts := buildCounts samples
    let validCount := validCountOf samples
    if validCount = 0 then none
    else
      let distinct := counts.length
      let rate : ℚ := (distinct : ℚ) / (n : ℚ)
      let entropy : ℝ :=
        (counts.map (fun e =>
          -((((e.2 : ℚ) / (validCount : ℚ)) : ℚ) : ℝ) *
            Real.logb 2 ((((e.2 : ℚ) / (validCount : ℚ)) : ℚ) : ℝ))).sum
      let maxEntropy : ℝ := Real.logb 2 (((if distinct = 0 then 1 else distinct) : ℕ) : ℝ)
      let tE : ℝ := if 0 < maxEntropy then entropy / maxEntropy else 0
      some ⟨tE, rate⟩

/- ### Semantic-estimator adapter (`classifyWithGemini`, lines 428-549) -/

/-- One run's parsed JSON payload (the `rationale` sub-object is carried
opaquely by the source and omitted here; no verified property reads it). -/
structure ParsedRun where
  level : Option ℚ := none
  T : Option ℚ := none
  C : Option ℚ := none
  L : Option ℚ := none
  note : Option String := none
deriving DecidableEq

/-- Outcome of one oracle attempt: an API/transport error carrying its
message, a response that stays unparsable even after `{...}` extraction,
or a successfully parsed run. -/
inductive AttemptOutcome where
  | apiError (msg : String)
  | parseFailure
  | parsed (r : ParsedRun)
deriving DecidableEq

/-- The object returned by `classifyWithGemini`; `{}` (total first-attempt
parse failure or no parsed runs) is the value with every field `none`. -/
structure GeminiResult where
  level : Option ℚ := none
  T : Option ℚ := none
  C : Option ℚ := none
  L : Option ℚ := none
  note : Option String := none
  temporalStability : Option ℚ := none
deriving DecidableEq

def emptyGemini : GeminiResult := {}

/-- JS `Math.max(...xs)` on a non-empty list (never called on `[]`). -/
def listMax : List ℚ → ℚ
  | [] => 0
  | x :: xs => xs.foldl max x

/-- JS `Math.min(...xs)` on a non-empty list (never called on `[]`). -/
def listMin : List ℚ → ℚ
  | [] => 0
  | x :: xs => xs.foldl min x

/-- Server lines 536-543: the stability proxy is computed only when there
is more than one parsed run AND every parsed run reports a numeric T. -/
def stabilityOf (runs : List ParsedRun) : Option ℚ :=
  if 1 < runs.length ∧ runs.all (fun r => r.T.isSome) = true then
    let tValues := runs.filterMap (fun r => r.T)
    some (clamp01 (1 - (listMax tValues - listMin tValues)))
  else none

/-- The attempt loop of `classifyWithGemini` (lines 471-527): a transport
error on attempt 0 is re-thrown (`Except.error`); a total parse failure on
attempt 0 returns `{}` immediately (`Option.none` here); later failures of
either kind are skipped; parsed runs are collected in order. -/
def classifyGo : Nat → List AttemptOutcome → List ParsedRun →
    Except String (Option (List ParsedRun))
  | _, [], acc => .ok (some acc)
  | i, a :: rest, acc =>
      match a with
      | .apiError msg => if i = 0 then .error msg else classifyGo (i + 1) rest acc
      | .parseFailure => if i = 0 then .ok none else classifyGo (i + 1) rest acc
      | .parsed r => classifyGo (i + 1) rest (acc ++ [r])

/-- Model of `classifyWithGemini` as a function of the attempt outcomes: run the
loop, return `{}` when nothing parsed, otherwise the first parsed run's
fields augmented with the temporal-stability proxy. -/
def classifyWithGemini (attempts : List AttemptOutcome) : Except String GeminiResult :=
  match classifyGo 0 attempts [] with
  | .error m => .error m
  | .ok none => .ok emptyGemini
  | .ok (some []) => .ok emptyGemini
  | .ok (some (base :: rest)) =>
      .ok { level := base.level, T := base.T, C := base.C, L := base.L,
            note := base.note, temporalStability := stabilityOf (base :: rest) }

/- ### Modifier engine (`computeModifiers`, lines 240-295) -/

inductive Stakes where
  | low
  | medium
  | high
deriving DecidableEq

inductive Expertise where
  | novice
  | intermediate
  | expert
deriving DecidableEq

structure SystemProfilePayload where
  stakes : Stakes
  expertise : Expertise
  confidenceBadges : Bool
  interruptButton : Bool
  safeMode : Bool
  rationaleView : Bool
deriving DecidableEq

structure ModifierScores where
  O : ℚ
  I : ℚ
  X : ℚ
  Lp : ℚ
  F : ℚ
  S : ℚ
  A : ℚ
  D : ℚ
deriving DecidableEq

/-- Model of `computeModifiers`: baselines `O=0.6, I=0.5, X=0.5, Lp=0.8, F=0.6,
S=0.6, A=0.5, D=0.4`, then the additive rule table applied in source
order, each step clamped to `[0,1]`.  The source mutates one field at a
time; the sequential `let` shadowing below reproduces that order exactly. -/
def computeModifiers (profile : Option SystemProfilePayload) : ModifierScores :=
  let O : ℚ := 0.6
  let I : ℚ := 0.5
  let X : ℚ := 0.5
  let Lp : ℚ := 0.8
  let F : ℚ := 0.6
  let S : ℚ := 0.6
  let A : ℚ := 0.5
  let D : ℚ := 0.4
  match profile with
  | none => ⟨O, I, X, Lp, F, S, A, D⟩
  | some p =>
      let S := if p.stakes = .high then clamp01 (S + 0.25)
        else if p.stakes = .low then clamp01 (S - 0.1) else S
      let O := if p.stakes = .high then clamp01 (O + 0.1) else O
      let O := if p.expertise = .novice then clamp01 (O + 0.1)
        else if p.expertise = .expert then clamp01 (O - 0.05) else O
      let F := if p.expertise = .novice then clamp01 (F + 0.1) else F
      let O := if p.confidenceBadges then clamp01 (O + 0.15) else O
      let I := if p.interruptButton then clamp01 (I + 0.2) else I
      let S := if p.safeMode then clamp01 (S + 0.2) else S
      let O := if p.rationaleView then clamp01 (O + 0.1) else O
      let A := if p.rationaleView then clamp01 (A + 0.05) else A
      ⟨O, I, X, Lp, F, S, A, D⟩

/- ### The `/api/classify` handler (lines 551-788) -/

/-- Request body fields the handler reads (identifier and timestamp fields
are never read by the computation and are omitted). -/
structure ClassificationInput where
  systemDescription : Option String := none
  prompt : Option String := none
  response : Option String := none
  responseSamples : Option (List String) := none
  userExpectations : Option UserExpectations := none
  profile : Option SystemProfilePayload := none

/-- The estimator stage's state at line 702: the dimension scores, the
level (`none` models the reachable NaN), the notes so far, and the
temporal-stability value held for the metrics object. -/
structure Stage1 where
  T : ℚ
  C : ℚ
  L : ℚ
  level : Option ℤ
  notes : List String
  tStab : Option ℚ

/-- The note pushed by the outer `catch` (line 699). -/
def fallbackNote (msg : String) : String :=
  "Gemini classification failed: " ++ msg ++ ". Falling back to heuristic scores."

/-- Lines 632-636: average the reported levels of the successful results,
replacing falsy (`|| 2`) values, round, clamp to `[1,5]`.  When no result
reports a level the JS division is `0/0 = NaN`, which `Math.round`,
`Math.max` and `Math.min` all propagate: modelled as `none`. -/
def finalLevelMulti (results : List GeminiResult) : Option ℤ :=
  let withLevel := results.filter (fun r => r.level.isSome)
  if withLevel.length = 0 then none
  else
    let avgLevel := (withLevel.map (fun r => jsOr r.level 2)).sum / (withLevel.length : ℚ)
    some (clampLevel (jsRound avgLevel))

/-- Single-classification branch (lines 660-695).  The oracle is modelled
as the stream of outcomes of the successive `generateContent` calls; this
branch performs exactly one call. -/
def stage1Single (oracle : Nat → AttemptOutcome) : Except String Stage1 :=
  match classifyWithGemini [oracle 0] with
  | .error m => .error m
  | .ok g =>
      let dims : ℚ × ℚ × ℚ :=
        match g.T, g.C, g.L with
        | some t, some c, some l => (t, c, l)
        | _, _, _ => (0.8, 0.7, 0.6)
      match g.temporalStability with
      | some ts =>
          let blendedT := clamp01 (0.7 * dims.1 + 0.3 * ts)
          let level : Option ℤ :=
            match g.level with
            | some lv => some (clampLevel (jsRound lv))
            | none => some (scoreToLevel ((blendedT + dims.2.1 + dims.2.2) / 3))
          .ok { T := blendedT, C := dims.2.1, L := dims.2.2, level := level,
                notes := ["Temporal stability proxy from repeated classification."] ++
                  (match g.note with | some nt => [nt] | none => []),
                tStab := some ts }
      | none =>
          let level : Option ℤ :=
            match g.level with
            | some lv => some (clampLevel (jsRound lv))
            | none => some (scoreToLevel ((dims.1 + dims.2.1 + dims.2.2) / 3))
          .ok { T := dims.1, C := dims.2.1, L := dims.2.2, level := level,
                notes := (match g.note with | some nt => [nt] | none => []),
                tStab := none }

/-- Multi-sample branch (lines 575-659): one single-attempt call per
sample (the `i`-th call consuming `oracle i`); per-call errors and
unusable results are skipped; if everything failed, one fallback single
call (consuming `oracle k`) whose error propagates to the outer catch.
Numeric interpolations inside note strings are elided. -/
def stage1Multi (oracle : Nat → AttemptOutcome) (k : Nat) : Except String Stage1 :=
  let outcomes := (List.range k).map oracle
  let results := outcomes.filterMap (fun o =>
    match classifyWithGemini [o] with
    | .error _ => none
    | .ok g => if g.T.isSome ∧ g.C.isSome ∧ g.L.isSome then some g else none)
  if results.length = 0 then
    match classifyWithGemini [oracle k] with
    | .error m => .error m
    | .ok g =>
        let dims : ℚ × ℚ × ℚ :=
          match g.T, g.C, g.L with
          | some t, some c, some l => (t, c, l)
          | _, _, _ => (0.8, 0.7, 0.6)
        let level : Option ℤ :=
          match g.level with
          | some lv => some (clampLevel (jsRound lv))
          | none => some 2
        .ok { T := dims.1, C := dims.2.1, L := dims.2.2, level := level,
              notes := ["Multi-response classification failed; using single classification."],
              tStab := none }
  else
    let len : ℚ := (results.length : ℚ)
    let avgT := (results.map (fun r => jsOr r.T 0)).sum / len
    let avgC := (results.map (fun r => jsOr r.C 0)).sum / len
    let avgL := (results.map (fun r => jsOr r.L 0)).sum / len
    let dT := clamp01 avgT
    let dC := clamp01 avgC
    let dL := clamp01 avgL
    let tValues := results.map (fun r => jsOr r.T 0)
    let range := listMax tValues - listMin tValues
    let tStab := clamp01 (1 - range)
    let blendedT := clamp01 (0.7 * dT + 0.3 * tStab)
    .ok { T := blendedT, C := dC, L := dL, level := finalLevelMulti results,
          notes := ["Averaged classification across response samples."],
          tStab := some tStab }

/-- Lines 567-572 and 574-700: pick `k`, run the matching branch, and on a
propagated error perform the `catch`: heuristic defaults, level 2 (its
initialised value), and the fallback note. -/
def classifyStage (input : ClassificationInput) (oracle : Nat → AttemptOutcome) : Stage1 :=
  let responseSamples := input.responseSamples.getD []
  let k := if 1 < responseSamples.length then min 10 responseSamples.length else 1
  match (if 1 < k then stage1Multi oracle k else stage1Single oracle) with
  | .ok st => st
  | .error m =>
      { T := 0.8, C := 0.7, L := 0.6, level := some 2,
        notes := [fallbackNote m], tStab := none }

/-- C-refinement block (lines 714-739): entered when expectations exist,
`P_t` was built and `expectedVariation` is present; blends `0.5/0.5` with
the exact C, falling back to the `0.7/0.3` alignment proxy only when
`C_exact` is null AND the temporal variation rate is defined. -/
def refineC (c : ℚ) (pT : Option DistMap) (ue : Option UserExpectations)
    (actualVar : Option ℚ) : ℚ × List String :=
  match ue with
  | none => (c, [])
  | some u =>
      match pT with
      | none => (c, [])
      | some P =>
          match u.expectedVariation with
          | none => (c, [])
          | some ev =>
              let q := constructQ_t_u P u
              match computeCExact P q with
              | some cExact =>
                  (clamp01 (0.5 * c + 0.5 * cExact),
                    ["C computed using exact formula (paper Section 2.2)."])
              | none =>
                  match actualVar with
                  | some av =>
                      (clamp01 (0.7 * c + 0.3 * (1 - |ev - av|)),
                        ["C refined using alignment proxy."])
                  | none => (c, [])

/-- Lowercased whitespace-split word list used by the Jaccard fallback
(leading-empty tokens of the JS `/\s+/` split are immaterial here and
dropped). -/
def jsWords (s : String) : List String :=
  (s.toLower.split Char.isWhitespace).filter (fun w => w ≠ "")

/-- Token-level Jaccard similarity (lines 756-760), with JS `Set`s
modelled by deduplicated lists. -/
def jaccard (expected response : String) : ℚ :=
  let ew := (jsWords expected).dedup
  let aw := (jsWords response).dedup
  let inter := ew.filter (fun w => w ∈ aw)
  let uni := (ew ++ aw).dedup
  if 0 < uni.length then (inter.length : ℚ) / (uni.length : ℚ) else 0

open Classical in
/-- L-refinement block (lines 741-765): entered when expectations exist,
`P_t` was built, and `expectedOutput` and `response` are both truthy;
blends `0.5/0.5` with the exact L, falling back to the `0.6/0.4` Jaccard
blend when `L_exact` is null. -/
noncomputable def refineL (l : ℚ) (pT : Option DistMap) (ue : Option UserExpectations)
    (response : Option String) : ℝ × List String :=
  match ue with
  | none => ((l : ℝ), [])
  | some u =>
      match pT with
      | some P =>
          if strTruthy u.expectedOutput ∧ strTruthy response then
            let q := constructQ_t_u P u
            match computeLExact P q with
            | some lExact =>
                (max 0 (min 1 (0.5 * (l : ℝ) + 0.5 * lExact)),
                  ["L computed using exact KL divergence formula (paper Section 2.2)."])
            | none =>
                let sim := jaccard (u.expectedOutput.getD "") (response.getD "")
                (max 0 (min 1 (0.6 * (l : ℝ) + 0.4 * (sim : ℝ))),
                  ["L refined using Jaccard similarity proxy."])
          else ((l : ℝ), [])
      | none => ((l : ℝ), [])

/-- The `metrics` object of the response (either both temporal fields or
neither, plus the classifier stability proxy). -/
structure OutputMetrics where
  temporalEntropy : Option ℝ := none
  temporalVariationRate : Option ℚ := none
  temporalStabilityFromClassifier : Option ℚ := none

/-- The `dimensions` object of the response.  `T` and `C` stay rational; `L` may pass
through `exp`/`log2` during refinement and lives in `ℝ`. -/
structure Dimensions where
  T : ℚ
  C : ℚ
  L : ℝ

/-- The response body (fields not read by any verified property —
`guidance`, `rationale`, `version` — are omitted).  `level : Option ℤ`
uses `none` for the NaN documented at `finalLevelMulti`. -/
structure ClassificationOutput where
  level : Option ℤ
  dimensions : Dimensions
  overallScore : ℚ
  modifiers : ModifierScores
  metrics : OutputMetrics
  notes : List String

open Classical in
/-- The full `/api/classify` handler (lines 551-788) as a total function
of the request and the oracle-outcome stream: estimator stage with catch,
`overall` computed from the pre-refinement dims (line 702), temporal
metrics and `P_t` over ALL samples, then the C- and L-refinement blocks,
modifiers, and response assembly.  Totality of this definition is the
model of "no exception crosses the handler". -/
noncomputable def handleClassify (input : ClassificationInput)
    (oracle : Nat → AttemptOutcome) : ClassificationOutput :=
  let st := classifyStage input oracle
  let overall := (st.T + st.C + st.L) / 3
  let allResponseSamples := input.responseSamples.getD []
  let metricsFromSamples := computeTemporalMetricsFromSamples allResponseSamples
  let pT : Option DistMap :=
    if 0 < allResponseSamples.length then
      some (computeEmpiricalDistribution allResponseSamples)
    else none
  let rc := refineC st.C pT input.userExpectations
    (metricsFromSamples.map (fun m => m.temporalVariationRate))
  let rl := refineL st.L pT input.userExpectations input.response
  { level := st.level,
    dimensions := { T := st.T, C := rc.1, L := rl.1 },
    overallScore := overall,
    modifiers := computeModifiers input.profile,
    metrics :=
      { temporalEntropy := metricsFromSamples.map (fun m => m.temporalEntropy),
        temporalVariationRate := metricsFromSamples.map (fun m => m.temporalVariationRate),
        temporalStabilityFromClassifier := st.tStab },
    notes := st.notes ++ rc.2 ++ rl.2 }

/- ### Derived facts about the counting loop -/

theorem perm_of_nodup_of_mem_iff {α : Type} [DecidableEq α] {l₁ l₂ : List α}
    (h₁ : l₁.Nodup) (h₂ : l₂.Nodup) (h : ∀ x, x ∈ l₁ ↔ x ∈ l₂) : l₁.Perm l₂ := by
  rw [List.perm_iff_count]
  intro a
  by_cases ha : a ∈ l₁
  · rw [List.count_eq_one_of_mem h₁ ha, List.count_eq_one_of_mem h₂ ((h a).mp ha)]
  · rw [List.count_eq_zero_of_not_mem ha,
      List.count_eq_zero_of_not_mem (fun hm => ha ((h a).mpr hm))]

theorem buildCounts_keys_perm (samples : List String) :
    ((buildCounts samples).map Prod.fst).Perm (validList samples).dedup := by
  obtain ⟨hnd, _, hmem⟩ := buildCounts_represents samples
  exact perm_of_nodup_of_mem_iff hnd (List.nodup_dedup _)
    (fun x => by rw [hmem, List.mem_dedup])

theorem buildCounts_length (samples : List String) :
    (buildCounts samples).length = (validList samples).dedup.length := by
  have h := (buildCounts_keys_perm samples).length_eq
  simpa using h

theorem buildCounts_eq_nil_iff (samples : List String) :
    buildCounts samples = [] ↔ validCountOf samples = 0 := by
  obtain ⟨_, _, hmem⟩ := buildCounts_represents samples
  have h1 : validCountOf samples = 0 ↔ validList samples = [] := by
    simp [validCountOf, List.length_eq_zero]
  constructor
  · intro h
    rw [h1, List.eq_nil_iff_forall_not_mem]
    intro x hx
    have hk := (hmem x).mpr hx
    simp [h] at hk
  · intro h
    rw [h1] at h
    cases hb : buildCounts samples with
    | nil => rfl
    | cons e rest =>
        have hk : e.1 ∈ (buildCounts samples).map Prod.fst := by simp [hb]
        have := (hmem e.1).mp hk
        simp [h] at this

/-- Transfer a per-entry computation over the counts map to a sum over the
distinct valid strings with their occurrence counts. -/
theorem buildCounts_map_sum {M : Type} [AddCommMonoid M] (samples : List String)
    (g : String → Nat → M) :
    ((buildCounts samples).map (fun e => g e.1 e.2)).sum
      = ((validList samples).dedup.map
          (fun x => g x ((validList samples).count x))).sum := by
  obtain ⟨_, hcnt, _⟩ := buildCounts_represents samples
  have h1 : (buildCounts samples).map (fun e => g e.1 e.2)
      = (buildCounts samples).map (fun e => g e.1 ((validList samples).count e.1)) :=
    List.map_congr_left (fun p hp => by rw [hcnt p hp])
  have h2 : (buildCounts samples).map (fun e => g e.1 ((validList samples).count e.1))
      = ((buildCounts samples).map Prod.fst).map
          (fun x => g x ((validList samples).count x)) := by
    rw [List.map_map]
    rfl
  rw [h1, h2]
  exact ((buildCounts_keys_perm samples).map _).sum_eq

theorem validCountOf_le_length (samples : List String) :
    validCountOf samples ≤ samples.length := by
  calc validCountOf samples ≤ (samples.map jsTrim).length :=
        List.length_filter_le _ _
    _ = samples.length := List.length_map _ _

/- ### C10 -/

/-- C10: for every profile input (including an absent profile),
`computeModifiers` leaves the X, Lp and D modifiers at their baselines:
the returned X is always 0.5, Lp always 0.8 and D always 0.4 — no rule in
the table adjusts these three fields. -/
theorem computeModifiers_fixes_X_Lp_D (p : Option SystemProfilePayload) :
    (computeModifiers p).X = 0.5 ∧ (computeModifiers p).Lp = 0.8 ∧
      (computeModifiers p).D = 0.4 := by
  cases p with
  | none => exact ⟨rfl, rfl, rfl⟩
  | some pr => exact ⟨rfl, rfl, rfl⟩

/- ### C9 -/

/-- Folding the additive rule deltas with per-step clamping, starting from
a baseline (how `computeModifiers` applies its rule table to one field). -/
def foldClampAdd (start : ℚ) (ds : List ℚ) : ℚ :=
  ds.foldl (fun a d => clamp01 (a + d)) start

theorem clamp01_of_bounds {x : ℚ} (h0 : 0 ≤ x) (h1 : x ≤ 1) : clamp01 x = x := by
  unfold clamp01
  rw [min_eq_right h1, max_eq_right h0]

theorem foldClampAdd_eq_add_sum :
    ∀ (ds : List ℚ) (start : ℚ), 0 ≤ start → (∀ d ∈ ds, 0 ≤ d) →
      start + ds.sum ≤ 1 → foldClampAdd start ds = start + ds.sum := by
  intro ds
  induction ds with
  | nil => intro start _ _ _; simp [foldClampAdd]
  | cons d t ih =>
      intro start h0 hds hsum
      have hd : 0 ≤ d := hds d (by simp)
      have ht : ∀ x ∈ t, 0 ≤ x := fun x hx => hds x (by simp [hx])
      have htsum : 0 ≤ t.sum := List.sum_nonneg ht
      have h1 : start + d ≤ 1 := by
        have := hsum
        simp only [List.sum_cons] at this
        linarith
      have hstep : clamp01 (start + d) = start + d :=
        clamp01_of_bounds (by linarith) h1
      have : foldClampAdd start (d :: t) = foldClampAdd (clamp01 (start + d)) t := rfl
      rw [this, hstep, ih (start + d) (by linarith) ht (by
        simp only [List.sum_cons] at hsum
        linarith)]
      simp only [List.sum_cons]
      ring

/-- C9: `computeModifiers` on the profile {stakes: high, expertise: novice,
confidenceBadges: true, other flags false} returns O = 0.95 and S = 0.85;
these values arise by clamped-additive folding of the applicable rule
deltas (O: +0.10 stakes-high, +0.10 novice, +0.15 badges from baseline
0.6; S: +0.25 stakes-high from baseline 0.6), and any order of applying
those deltas yields the same result. -/
theorem computeModifiers_high_novice_badges :
    (computeModifiers (some ⟨.high, .novice, true, false, false, false⟩)).O = 0.95 ∧
    (computeModifiers (some ⟨.high, .novice, true, false, false, false⟩)).S = 0.85 ∧
    (computeModifiers (some ⟨.high, .novice, true, false, false, false⟩)).O
      = foldClampAdd 0.6 [0.1, 0.1, 0.15] ∧
    (computeModifiers (some ⟨.high, .novice, true, false, false, false⟩)).S
      = foldClampAdd 0.6 [0.25] ∧
    (∀ l : List ℚ, l.Perm [0.1, 0.1, 0.15] → foldClampAdd 0.6 l = 0.95) ∧
    (∀ l : List ℚ, l.Perm [0.25] → foldClampAdd 0.6 l = 0.85) := by
  have hO : ∀ l : List ℚ, l.Perm [0.1, 0.1, 0.15] → foldClampAdd 0.6 l = 0.95 := by
    intro l hl
    have hsum := hl.sum_eq
    have hmem : ∀ d ∈ l, (0:ℚ) ≤ d := by
      intro d hd
      have hmm : d ∈ [(0.1 : ℚ), 0.1, 0.15] := hl.mem_iff.mp hd
      fin_cases hmm <;> norm_num
    rw [foldClampAdd_eq_add_sum l 0.6 (by norm_num) hmem
      (by rw [hsum]; norm_num), hsum]
    norm_num
  have hS : ∀ l : List ℚ, l.Perm [0.25] → foldClampAdd 0.6 l = 0.85 := by
    intro l hl
    have hsum := hl.sum_eq
    have hmem : ∀ d ∈ l, (0:ℚ) ≤ d := by
      intro d hd
      have hmm : d ∈ [(0.25 : ℚ)] := hl.mem_iff.mp hd
      fin_cases hmm
      norm_num
    rw [foldClampAdd_eq_add_sum l 0.6 (by norm_num) hmem
      (by rw [hsum]; norm_num), hsum]
    norm_num
  refine ⟨?_, ?_, ?_, ?_, hO, hS⟩
  · norm_num [computeModifiers, clamp01]
  · norm_num [computeModifiers, clamp01]
  · rw [hO [0.1, 0.1, 0.15] (List.Perm.refl _)]
    norm_num [computeModifiers, clamp01]
  · rw [hS [0.25] (List.Perm.refl _)]
    norm_num [computeModifiers, clamp01]

/-- Witness for C9: the order-independence clauses applied at an explicit
reordering of the delta lists. -/
theorem computeModifiers_high_novice_badges_witness :
    foldClampAdd 0.6 [0.15, 0.1, 0.1] = 0.95 ∧ foldClampAdd 0.6 [0.25] = 0.85 :=
  ⟨computeModifiers_high_novice_badges.2.2.2.2.1 [0.15, 0.1, 0.1]
      ((List.Perm.swap 0.1 0.15 [0.1]).trans
        (List.Perm.cons 0.1 (List.Perm.swap 0.1 0.15 []))),
    computeModifiers_high_novice_badges.2.2.2.2.2 [0.25] (List.Perm.refl _)⟩

/- ### C7 -/

/-- C7: for every non-empty `P_t` with exactly one outcome and every
smoothed `Q`, `computeLExact` returns exactly 1: `H_max = log2(1) = 0`
short-circuits to the deterministic case before any KL computation. -/
theorem computeLExact_singleton (P Q : DistMap) (h : P.length = 1) :
    computeLExact P Q = some 1 := by
  simp [computeLExact, h, Real.logb_one]

/-- Witness for C7 at a concrete one-point distribution. -/
theorem computeLExact_singleton_witness :
    computeLExact [("a", 1)] [] = some 1 :=
  computeLExact_singleton [("a", 1)] [] rfl

/- ### C1 (corrected) -/

/-- Counterexample to C1 as stated: with samples `["a", ""]` the only mass
is `1/2` (count 1 over RAW length 2, not over validCount 1), so the masses
sum to `1/2`, not 1, even though a non-empty-after-trim sample exists. -/
theorem empiricalDistribution_sum_cex :
    computeEmpiricalDistribution ["a", ""] = [("a", 1/2)] ∧
      ((computeEmpiricalDistribution ["a", ""]).map Prod.snd).sum ≠ 1 := by
  have hb : buildCounts ["a", ""] = [("a", 1)] := by decide
  have h : computeEmpiricalDistribution ["a", ""] = [("a", 1/2)] := by
    simp [computeEmpiricalDistribution, hb]
  refine ⟨h, ?_⟩
  rw [h]
  norm_num

/-- C1 (amended): `computeEmpiricalDistribution` divides each count by the
RAW sample count, so the masses sum to `validCount / n`; they sum to 1
exactly when every sample survives trimming. -/
theorem empiricalDistribution_sum (samples : List String) (h : samples ≠ []) :
    ((computeEmpiricalDistribution samples).map Prod.snd).sum
        = (validCountOf samples : ℚ) / (samples.length : ℚ) ∧
      ((∀ s ∈ samples, jsTrim s ≠ "") →
        ((computeEmpiricalDistribution samples).map Prod.snd).sum = 1) := by
  have hsum : ((computeEmpiricalDistribution samples).map Prod.snd).sum
      = (validCountOf samples : ℚ) / (samples.length : ℚ) := by
    have h1 : (computeEmpiricalDistribution samples).map Prod.snd
        = (buildCounts samples).map (fun e => (e.2 : ℚ) / (samples.length : ℚ)) := by
      simp [computeEmpiricalDistribution, List.map_map]
    rw [h1]
    have h2 : (buildCounts samples).map (fun e => (e.2 : ℚ) / (samples.length : ℚ))
        = (buildCounts samples).map (fun e => (e.2 : ℚ) * (samples.length : ℚ)⁻¹) := by
      simp [div_eq_mul_inv]
    rw [h2, List.sum_map_mul_right, ← buildCounts_sum samples]
    rw [div_eq_mul_inv]
    congr 1
    have h3 : List.map (fun e : String × ℕ => ((e.2 : ℕ) : ℚ)) (buildCounts samples)
        = ((buildCounts samples).map Prod.snd).map (fun n : ℕ => (n : ℚ)) := by
      simp [List.map_map, Function.comp]
    rw [h3]
    exact (Nat.cast_list_sum _).symm
  refine ⟨hsum, fun hall => ?_⟩
  have hvc : validCountOf samples = samples.length := by
    unfold validCountOf validList
    have : ∀ t ∈ samples.map jsTrim, (t ≠ "") := by
      intro t ht
      obtain ⟨s, hs, rfl⟩ := List.mem_map.mp ht
      exact hall s hs
    rw [List.filter_eq_self.mpr (fun a ha => by simpa using this a ha)]
    exact List.length_map _ _
  rw [hsum, hvc, div_self]
  exact Nat.cast_ne_zero.mpr (fun h0 => h (List.length_eq_zero.mp h0))

/-- Witness for C1 (amended) at `["a", "b"]`. -/
theorem empiricalDistribution_sum_witness :
    ((computeEmpiricalDistribution ["a", "b"]).map Prod.snd).sum
        = (validCountOf ["a", "b"] : ℚ) / (((["a", "b"] : List String).length : ℕ) : ℚ) ∧
      ((∀ s ∈ (["a", "b"] : List String), jsTrim s ≠ "") →
        ((computeEmpiricalDistribution ["a", "b"]).map Prod.snd).sum = 1) :=
  empiricalDistribution_sum ["a", "b"] (by decide)

/- ### C6 -/

/-- A valid probability distribution in the sense of the spec: distinct
outcomes, non-negative masses, total mass 1. -/
def IsDistribution (D : DistMap) : Prop :=
  (D.map Prod.fst).Nodup ∧ (∀ e ∈ D, 0 ≤ e.2) ∧ (D.map Prod.snd).sum = 1

theorem jsGetOr_zero_bounds (Q : DistMap) (hQ : IsDistribution Q) (x : String) :
    0 ≤ jsGetOr Q x 0 ∧ jsGetOr Q x 0 ≤ 1 := by
  obtain ⟨_, hpos, hsum⟩ := hQ
  unfold jsGetOr
  cases hfind : Q.find? (fun e => e.1 = x) with
  | none => norm_num
  | some e =>
      have he : e ∈ Q := List.mem_of_find?_eq_some hfind
      have h0 : (0:ℚ) ≤ e.2 := hpos e he
      have h1 : e.2 ≤ 1 := by
        have hm : e.2 ∈ Q.map Prod.snd := List.mem_map.mpr ⟨e, he, rfl⟩
        have := List.single_le_sum
          (fun q hq => by
            obtain ⟨e', he', rfl⟩ := List.mem_map.mp hq
            exact hpos e' he') e.2 hm
        rw [hsum] at this
        exact this
      by_cases he0 : e.2 = 0 <;> simp [he0] <;> constructor <;> assumption

/-- C6: for every valid `P_t` and valid `Q_t^u`, `computeCExact` returns a
value in [0,1], and it returns null exactly when `P_t` is empty. -/
theorem computeCExact_range (P Q : DistMap)
    (hP : IsDistribution P) (hQ : IsDistribution Q) :
    (computeCExact P Q = none ↔ P = []) ∧
      (∀ c, computeCExact P Q = some c → 0 ≤ c ∧ c ≤ 1) := by
  obtain ⟨_, hPpos, _⟩ := hP
  constructor
  · constructor
    · intro h
      by_contra hne
      have h0 : ¬ P.length = 0 := fun hl => hne (List.length_eq_zero.mp hl)
      simp only [computeCExact, if_neg h0] at h
      split_ifs at h <;> simp_all
    · rintro rfl
      simp [computeCExact]
  · intro c hc
    by_cases h0 : P.length = 0
    · simp [computeCExact, h0] at hc
    · simp only [computeCExact, if_neg h0] at hc
      set probs := List.insertionSort (fun a b => a ≥ b) (P.map Prod.snd) with hprobs
      set theta := probs.getD (probs.length / 2) 0 with htheta
      set et := P.filter (fun e => decide (theta ≤ e.2)) with het
      have hsub : ∀ e ∈ et, e ∈ P := fun e he => List.mem_of_mem_filter he
      have hetpos : ∀ e ∈ et, (0:ℚ) ≤ e.2 := fun e he => hPpos e (hsub e he)
      have hnum0 : (0:ℚ) ≤ (et.map (fun e => e.2 * jsGetOr Q e.1 0)).sum := by
        refine List.sum_nonneg ?_
        intro q hq
        obtain ⟨e, he, rfl⟩ := List.mem_map.mp hq
        exact mul_nonneg (hetpos e he) (jsGetOr_zero_bounds Q hQ e.1).1
      have hden0 : (0:ℚ) ≤ (et.map Prod.snd).sum := by
        refine List.sum_nonneg ?_
        intro q hq
        obtain ⟨e, he, rfl⟩ := List.mem_map.mp hq
        exact hetpos e he
      have hnumden : (et.map (fun e => e.2 * jsGetOr Q e.1 0)).sum
          ≤ (et.map Prod.snd).sum := by
        refine List.sum_le_sum ?_
        intro e he
        have := (jsGetOr_zero_bounds Q hQ e.1).2
        calc e.2 * jsGetOr Q e.1 0 ≤ e.2 * 1 :=
              mul_le_mul_of_nonneg_left this (hetpos e he)
          _ = e.2 := mul_one _
      split_ifs at hc with h1 h2
      · obtain rfl : (0:ℚ) = c := Option.some.inj hc
        norm_num
      · obtain rfl : (0:ℚ) = c := Option.some.inj hc
        norm_num
      · obtain rfl := Option.some.inj hc
        have hdpos : 0 < (et.map Prod.snd).sum := lt_of_le_of_ne hden0 (Ne.symm h2)
        exact ⟨div_nonneg hnum0 hden0, (div_le_one hdpos).mpr hnumden⟩

/-- Witness for C6 at a concrete two-point `P_t` and one-point `Q_t^u`. -/
theorem computeCExact_range_witness :
    (computeCExact [("a", 1/2), ("b", 1/2)] [("a", 1)] = none ↔
        ([("a", (1:ℚ)/2), ("b", 1/2)] : DistMap) = []) ∧
      (∀ c, computeCExact [("a", 1/2), ("b", 1/2)] [("a", 1)] = some c →
        0 ≤ c ∧ c ≤ 1) :=
  computeCExact_range [("a", 1/2), ("b", 1/2)] [("a", 1)]
    (by
      refine ⟨by decide, ?_, ?_⟩
      · intro e he
        simp only [List.mem_cons, List.not_mem_nil, or_false] at he
        rcases he with rfl | rfl <;> norm_num
      · norm_num)
    (by
      refine ⟨by decide, ?_, ?_⟩
      · intro e he
        simp only [List.mem_cons, List.not_mem_nil, or_false] at he
        subst he
        norm_num
      · norm_num)

/- ### C2 -/

/-- C2: whenever at least one sample survives trimming, `temporalMetrics`
reports `variationRate = distinctValidCount / rawCount` (the denominator
counts ALL raw samples, empties included), and entropy is the Shannon
entropy of the `count/validCount` masses normalised by `log2(distinct)`,
defined as 0 when `distinct ≤ 1`; in particular `["a","a","a"]` yields
entropy 0 and variation rate 1/3. -/
theorem temporalMetrics_characterisation :
    (∀ samples : List String, 0 < validCountOf samples →
      ∃ m, computeTemporalMetricsFromSamples samples = some m ∧
        m.temporalVariationRate
          = ((validList samples).dedup.length : ℚ) / (samples.length : ℚ) ∧
        ((validList samples).dedup.length ≤ 1 → m.temporalEntropy = 0) ∧
        (1 < (validList samples).dedup.length →
          m.temporalEntropy =
            ((validList samples).dedup.map (fun x =>
              -(((((validList samples).count x : ℚ) / (validCountOf samples : ℚ)) : ℚ) : ℝ) *
                Real.logb 2
                  (((((validList samples).count x : ℚ) / (validCountOf samples : ℚ)) : ℚ) : ℝ))).sum
            / Real.logb 2 (((validList samples).dedup.length : ℕ) : ℝ))) ∧
    computeTemporalMetricsFromSamples ["a", "a", "a"] = some ⟨0, 1/3⟩ := by
  constructor
  · intro samples hvc
    have hlen0 : ¬ samples.length = 0 := by
      have := validCountOf_le_length samples
      omega
    have hvc0 : ¬ validCountOf samples = 0 := by omega
    have hne : buildCounts samples ≠ [] := by
      rw [ne_eq, buildCounts_eq_nil_iff]
      omega
    have hposlen : 0 < (buildCounts samples).length := List.length_pos.mpr hne
    simp only [computeTemporalMetricsFromSamples, if_neg hlen0, if_neg hvc0]
    refine ⟨_, rfl, ?_, ?_, ?_⟩
    · rw [buildCounts_length]
    · intro hle
      have h1 : (buildCounts samples).length = 1 := by
        have := buildCounts_length samples
        omega
      simp [h1, Real.logb_one]
    · intro hgt
      have h2 : 1 < (buildCounts samples).length := by
        rw [buildCounts_length]
        exact hgt
      have hne0 : ¬ (buildCounts samples).length = 0 := by omega
      have hpos : (0:ℝ) < Real.logb 2 (((buildCounts samples).length : ℕ) : ℝ) := by
        refine Real.logb_pos (by norm_num) ?_
        exact_mod_cast h2
      rw [if_neg hne0, if_pos hpos]
      rw [buildCounts_map_sum samples
        (fun x c => -((((c : ℚ) / (validCountOf samples : ℚ)) : ℚ) : ℝ) *
          Real.logb 2 ((((c : ℚ) / (validCountOf samples : ℚ)) : ℚ) : ℝ))]
      rw [buildCounts_length]
  · have hb : buildCounts ["a", "a", "a"] = [("a", 3)] := by decide
    have hv : validCountOf ["a", "a", "a"] = 3 := by decide
    simp [computeTemporalMetricsFromSamples, hb, hv, Real.logb_one]

/-- Witness for C2 at the concrete sample list `["a", "b"]`. -/
theorem temporalMetrics_characterisation_witness :
    ∃ m, computeTemporalMetricsFromSamples ["a", "b"] = some m ∧
      m.temporalVariationRate
        = ((validList ["a", "b"]).dedup.length : ℚ) / (((["a", "b"] : List String)).length : ℚ) ∧
      ((validList ["a", "b"]).dedup.length ≤ 1 → m.temporalEntropy = 0) ∧
      (1 < (validList ["a", "b"]).dedup.length →
        m.temporalEntropy =
          ((validList ["a", "b"]).dedup.map (fun x =>
            -(((((validList ["a", "b"]).count x : ℚ) / (validCountOf ["a", "b"] : ℚ)) : ℚ) : ℝ) *
              Real.logb 2
                (((((validList ["a", "b"]).count x : ℚ) / (validCountOf ["a", "b"] : ℚ)) : ℚ) : ℝ))).sum
          / Real.logb 2 (((validList ["a", "b"]).dedup.length : ℕ) : ℝ)) :=
  temporalMetrics_characterisation.1 ["a", "b"] (by decide)

/- ### C8 -/

theorem computeCExact_eq_none_iff (P Q : DistMap) :
    computeCExact P Q = none ↔ P.length = 0 := by
  constructor
  · intro h
    by_contra h0
    simp only [computeCExact, if_neg h0] at h
    split_ifs at h <;> simp_all
  · intro h
    simp [computeCExact, h]

theorem temporalMetrics_none_of_no_valid (samples : List String)
    (h : validCountOf samples = 0) :
    computeTemporalMetricsFromSamples samples = none := by
  by_cases hlen : samples.length = 0
  · simp [computeTemporalMetricsFromSamples, hlen]
  · simp [computeTemporalMetricsFromSamples, hlen, h]

/-- C8: the alignment-proxy fallback for C is unreachable.  Whenever the
C-refinement block is entered (samples exist and `expectedVariation` is
supplied) and `computeCExact` is null, the temporal variation rate is also
undefined, so `refineC` leaves C unchanged (no 0.7/0.3 blend, no note). -/
theorem alignmentProxy_unreachable (samples : List String) (u : UserExpectations)
    (c : ℚ) (hs : samples ≠ []) (hev : u.expectedVariation.isSome = true)
    (hnull : computeCExact (computeEmpiricalDistribution samples)
      (constructQ_t_u (computeEmpiricalDistribution samples) u) = none) :
    computeTemporalMetricsFromSamples samples = none ∧
      refineC c (some (computeEmpiricalDistribution samples)) (some u)
        ((computeTemporalMetricsFromSamples samples).map
          (fun m => m.temporalVariationRate)) = (c, []) := by
  have hPlen : (computeEmpiricalDistribution samples).length = 0 :=
    (computeCExact_eq_none_iff _ _).mp hnull
  have hbc : buildCounts samples = [] := by
    have : (buildCounts samples).length = 0 := by
      simpa [computeEmpiricalDistribution] using hPlen
    exact List.length_eq_zero.mp this
  have hvc : validCountOf samples = 0 := (buildCounts_eq_nil_iff samples).mp hbc
  have hmet : computeTemporalMetricsFromSamples samples = none :=
    temporalMetrics_none_of_no_valid samples hvc
  refine ⟨hmet, ?_⟩
  obtain ⟨ev, hev'⟩ := Option.isSome_iff_exists.mp hev
  simp only [hmet, Option.map_none']
  simp only [refineC, hev', hnull]

/-- Witness for C8: with the single all-whitespace sample `[""]` the block
is entered, `C_exact` is null, and the fallback is indeed skipped. -/
theorem alignmentProxy_unreachable_witness :
    computeTemporalMetricsFromSamples [""] = none ∧
      refineC 0.7 (some (computeEmpiricalDistribution [""]))
        (some { expectedVariation := some 0.5 })
        ((computeTemporalMetricsFromSamples [""]).map
          (fun m => m.temporalVariationRate)) = (0.7, []) :=
  by
  have h1 : buildCounts [""] = [] := by decide
  have h2 : computeEmpiricalDistribution [""] = [] := by
    simp [computeEmpiricalDistribution, h1]
  exact alignmentProxy_unreachable [""] { expectedVariation := some 0.5 } 0.7
    (by decide) rfl (by rw [h2]; simp [computeCExact])

/- ### C4 (corrected) -/

theorem classifyGo_all_parsed (rs : List ParsedRun) :
    ∀ (i : Nat) (acc : List ParsedRun),
      classifyGo i (rs.map AttemptOutcome.parsed) acc = .ok (some (acc ++ rs)) := by
  induction rs with
  | nil => intro i acc; simp [classifyGo]
  | cons r t ih =>
      intro i acc
      simp only [List.map_cons, classifyGo, ih (i + 1) (acc ++ [r])]
      simp

/-- Counterexample to C4 as stated: three parsed runs of which two report
a numeric T (so "at least 2 parsed runs report a T value" holds), yet the
adapter computes no `temporalStability`, because the source requires EVERY
parsed run to report T (`parsedRuns.every`). -/
theorem classifyWithGemini_stability_cex :
    classifyWithGemini
        [AttemptOutcome.parsed { T := some 0.5 }, AttemptOutcome.parsed {},
          AttemptOutcome.parsed { T := some 0.7 }] =
      .ok { T := some 0.5, temporalStability := none } ∧
    2 ≤ (([{ T := some (0.5 : ℚ) }, {}, { T := some 0.7 }] : List ParsedRun).filter
        (fun r => r.T.isSome)).length := by
  constructor
  · rfl
  · decide

/-- C4 (amended): when there are at least two parsed runs and EVERY parsed
run reports a numeric T, the adapter computes
`temporalStability = clamp(1 − (max T − min T), 0, 1)` and attaches it to
the first parsed run's result. -/
theorem classifyWithGemini_stability (base : ParsedRun) (rest : List ParsedRun)
    (hne : rest ≠ []) (hT : ∀ r ∈ base :: rest, r.T.isSome = true) :
    classifyWithGemini ((base :: rest).map AttemptOutcome.parsed) =
      .ok { level := base.level, T := base.T, C := base.C, L := base.L,
            note := base.note,
            temporalStability := some (clamp01 (1 -
              (listMax ((base :: rest).filterMap (fun r => r.T)) -
                listMin ((base :: rest).filterMap (fun r => r.T))))) } := by
  have hgo := classifyGo_all_parsed (base :: rest) 0 []
  simp only [List.nil_append] at hgo
  have hlen : 1 < (base :: rest).length := by
    cases rest with
    | nil => exact absurd rfl hne
    | cons a t => simp
  have hall : (base :: rest).all (fun r => r.T.isSome) = true := by
    rw [List.all_eq_true]
    exact hT
  simp only [classifyWithGemini, hgo, stabilityOf, hlen, hall, and_self, if_pos,
    true_and]

/-- Witness for C4 (amended) at two concrete parsed runs. -/
theorem classifyWithGemini_stability_witness :
    classifyWithGemini
        (([{ T := some (0.9 : ℚ) }, { T := some 0.8 }] : List ParsedRun).map
          AttemptOutcome.parsed) =
      .ok { level := ({ T := some (0.9 : ℚ) } : ParsedRun).level,
            T := ({ T := some (0.9 : ℚ) } : ParsedRun).T,
            C := ({ T := some (0.9 : ℚ) } : ParsedRun).C,
            L := ({ T := some (0.9 : ℚ) } : ParsedRun).L,
            note := ({ T := some (0.9 : ℚ) } : ParsedRun).note,
            temporalStability := some (clamp01 (1 -
              (listMax (([{ T := some (0.9 : ℚ) }, { T := some 0.8 }] : List ParsedRun).filterMap
                  (fun r => r.T)) -
                listMin (([{ T := some (0.9 : ℚ) }, { T := some 0.8 }] : List ParsedRun).filterMap
                  (fun r => r.T))))) } :=
  classifyWithGemini_stability { T := some 0.9 } [{ T := some 0.8 }]
    (by simp) (by decide)

/- ### C3 (code bug) -/

/-- C3: at the failing input — two response samples, both classifications
parsing with T, C, L but without a level — the multi-sample aggregation
divides by the empty with-level count (`0/0 = NaN` in JS) and
`Math.round`/`Math.max`/`Math.min` propagate it, so the final level is NaN
(modelled `none`), not the documented fallback 2, violating the declared
`PredictabilityLevel = 1|2|3|4|5` type. -/
theorem multiLevel_nan_at_failing_input :
    (classifyStage { responseSamples := some ["x", "y"] }
        (fun _ => AttemptOutcome.parsed { T := some 0.8, C := some 0.7, L := some 0.6 })).level
      = none ∧
    finalLevelMulti [{ T := some 0.8, C := some 0.7, L := some 0.6 }] = none := by
  constructor
  · rfl
  · rfl

/- ### C5 (corrected) -/

/-- C5 (amended): when the sole estimator attempt fails with a transport
error, the handler catches it (the total model returns normally), uses the
heuristic defaults T=0.8, C=0.7, L=0.6 as the dimensions, and emits the
human-readable fallback note — and with no user expectations supplied these
defaults are exactly the final output dimensions. -/
theorem transportError_fallback (input : ClassificationInput)
    (oracle : Nat → AttemptOutcome) (msg : String)
    (hk : (input.responseSamples.getD []).length ≤ 1)
    (hue : input.userExpectations = none)
    (h0 : oracle 0 = .apiError msg) :
    (handleClassify input oracle).dimensions.T = 0.8 ∧
    (handleClassify input oracle).dimensions.C = 0.7 ∧
    (handleClassify input oracle).dimensions.L = (0.6 : ℝ) ∧
    (handleClassify input oracle).notes = [fallbackNote msg] := by
  have hklt : ¬ 1 < (input.responseSamples.getD []).length := by omega
  have hcg : classifyWithGemini [oracle 0] = .error msg := by
    rw [h0]
    simp [classifyWithGemini, classifyGo]
  have hst : classifyStage input oracle =
      { T := 0.8, C := 0.7, L := 0.6, level := some 2,
        notes := [fallbackNote msg], tStab := none } := by
    simp only [classifyStage, if_neg hklt]
    simp [stage1Single, hcg]
  refine ⟨?_, ?_, ?_, ?_⟩
  · simp [handleClassify, hst]
  · simp [handleClassify, hst, hue, refineC]
  · simp only [handleClassify, hst, hue, refineL]
    norm_num
  · simp [handleClassify, hst, hue, refineC, refineL]

/-- Witness for C5 (amended): empty request, oracle always down. -/
theorem transportError_fallback_witness :
    (handleClassify {} (fun _ => .apiError "offline")).dimensions.T = 0.8 ∧
    (handleClassify {} (fun _ => .apiError "offline")).dimensions.C = 0.7 ∧
    (handleClassify {} (fun _ => .apiError "offline")).dimensions.L = (0.6 : ℝ) ∧
    (handleClassify {} (fun _ => .apiError "offline")).notes = [fallbackNote "offline"] :=
  transportError_fallback {} (fun _ => .apiError "offline") "offline"
    (by simp) rfl rfl

/-- Counterexample to C5 as stated: with one response sample and an
`expectedVariation` expectation, a transport error on the sole attempt
still leads to the C-refinement block blending the default C with
`C_exact = 1`, so the final output does NOT carry the heuristic default
C = 0.7 but 0.85. -/
theorem transportError_fallback_cex :
    (handleClassify
        { response := some "yes", responseSamples := some ["yes"],
          userExpectations := some { expectedVariation := some 0.5 } }
        (fun _ => .apiError "offline")).dimensions.C = 0.85 ∧
      (0.85 : ℚ) ≠ 0.7 := by
  have hcg : classifyWithGemini
      [(fun _ => AttemptOutcome.apiError "offline") 0] = .error "offline" := by
    simp [classifyWithGemini, classifyGo]
  have hst : classifyStage
      { response := some "yes", responseSamples := some ["yes"],
        userExpectations := some { expectedVariation := some 0.5 } }
      (fun _ => .apiError "offline") =
      { T := 0.8, C := 0.7, L := 0.6, level := some 2,
        notes := [fallbackNote "offline"], tStab := none } := by
    simp [classifyStage, stage1Single, hcg]
  have hb : buildCounts ["yes"] = [("yes", 1)] := by decide
  have hP : computeEmpiricalDistribution ["yes"] = [("yes", 1)] := by
    simp [computeEmpiricalDistribution, hb]
  have hq : constructQ_t_u [("yes", 1)] { expectedVariation := some 0.5 }
      = [("yes", 1)] := by
    simp [constructQ_t_u, strTruthy]
  have hC : computeCExact [("yes", 1)] [("yes", 1)] = some 1 := by
    simp [computeCExact, List.insertionSort, List.orderedInsert, jsGetOr]
  refine ⟨?_, by norm_num⟩
  simp only [handleClassify, hst]
  simp [refineC, hP, hq, hC, clamp01]
  norm_num
